import Mathlib

/-!
Verification of the functional core of a single-user desktop to-do
application (`desktop_app.py`, `task_dialogs.py`): persistence
(`TaskManager`), the task data model, view projection (sorting and
flattening into display rows), the mutation operations (add, toggle,
drag-and-drop reorder) and the task-edit dialog state machine.

The Python code keeps tasks as plain dicts read through `.get` with
defaults; here a task is a structure whose fields are exactly those
defaulted reads (an absent `subtasks` key behaves like the empty list and
is represented as such).  File contents are classified the way
`json.load` over a UTF-8 text stream classifies them; strings are compared
code point by code point as Python compares `str`.
-/

/-- A subtask record `{title, completed, priority, due_date}` — no id, no
nesting — as created by `TodoApp.add_subtask`. -/
structure Subtask where
  title : String
  completed : Bool
  priority : String
  due_date : String
  deriving DecidableEq, Inhabited

/-- A task record `{id, title, completed, priority, due_date, subtasks}`,
as created by `TodoApp.add_task` (whose dict literal has no `subtasks`
key; the absent key reads exactly like the empty list through
`task.get`/`"subtasks" in task`, and is represented as `[]`). -/
structure TodoTask where
  id : Int
  title : String
  completed : Bool
  priority : String
  due_date : String
  subtasks : List Subtask
  deriving DecidableEq, Inhabited

/-- JSON values as `json.load` returns them for this app's files.  The app
only ever writes booleans, integer numbers, strings, arrays and objects;
numbers are modelled as `Int`. -/
inductive Json where
  | null
  | bool (b : Bool)
  | num (n : Int)
  | str (s : String)
  | arr (elems : List Json)
  | obj (fields : List (String × Json))

/-- First binding of a key in an object's field list — Python dict lookup
(objects written by this app have distinct keys). -/
def jLookup : List (String × Json) → String → Option Json
  | [], _ => none
  | (k, v) :: rest, key => if key = k then some v else jLookup rest key

/-- `d.get(key)` on a parsed JSON value: `none` when the value is not an
object or the key is absent. -/
def Json.get : Json → String → Option Json
  | .obj fields, key => jLookup fields key
  | _, _ => none

/-- `t.get(key, d)` read as a string, as the app reads `title`, `priority`
and `due_date` of a loaded dict. -/
def Json.getStr (j : Json) (key : String) (d : String) : String :=
  match j.get key with
  | some (.str s) => s
  | _ => d

/-- `t.get(key, d)` read as a boolean (`completed`). -/
def Json.getBool (j : Json) (key : String) (d : Bool) : Bool :=
  match j.get key with
  | some (.bool b) => b
  | _ => d

/-- `int(t.get(key, d))` (`id` in `TaskManager.next_id`). -/
def Json.getInt (j : Json) (key : String) (d : Int) : Int :=
  match j.get key with
  | some (.num n) => n
  | _ => d

/-- `t.get(key, [])` read as an array (`subtasks`). -/
def Json.getArr (j : Json) (key : String) : List Json :=
  match j.get key with
  | some (.arr l) => l
  | _ => []

/-- The JSON image of an in-memory subtask dict, key order of the dict
literal in `TodoApp.add_subtask`. -/
def Subtask.toJson (st : Subtask) : Json :=
  .obj [("title", .str st.title), ("completed", .bool st.completed),
        ("priority", .str st.priority), ("due_date", .str st.due_date)]

/-- The JSON image of an in-memory task dict with every key present (key
order of the dict literal in `TodoApp.add_task`, plus the `subtasks` key
added by `TodoApp.add_subtask`; a task that never had subtasks is dumped
without that key, which reads back identically to `[]`). -/
def TodoTask.toJson (t : TodoTask) : Json :=
  .obj [("id", .num t.id), ("title", .str t.title), ("completed", .bool t.completed),
        ("priority", .str t.priority), ("due_date", .str t.due_date),
        ("subtasks", .arr (t.subtasks.map Subtask.toJson))]

/-- How the app interprets a loaded subtask dict: each field read through
`.get` with its default. -/
def decodeSubtask (j : Json) : Subtask :=
  { title := j.getStr "title" "", completed := j.getBool "completed" false,
    priority := j.getStr "priority" "", due_date := j.getStr "due_date" "" }

/-- How the app interprets a loaded task dict: each field read through
`.get` with its default (`id` 0, strings empty, `completed` false, absent
`subtasks` empty). -/
def decodeTask (j : Json) : TodoTask :=
  { id := j.getInt "id" 0, title := j.getStr "title" "",
    completed := j.getBool "completed" false, priority := j.getStr "priority" "",
    due_date := j.getStr "due_date" "",
    subtasks := (j.getArr "subtasks").map decodeSubtask }

/-- A filesystem path as `pathlib` splits it: directory components, stem,
and final suffix — the default backing file is `⟨dir, "tasks", ".json"⟩`. -/
structure PyPath where
  dir : List String
  stem : String
  suffix : String
  deriving DecidableEq

/-- `p.name`: the file name without the directory. -/
def PyPath.fileName (p : PyPath) : String := p.stem ++ p.suffix

/-- `self.path.with_suffix(self.path.suffix + f".bak.{int(time.time())}")`:
`with_suffix` drops the existing final suffix and appends its argument, so
the net effect is appending `.bak.<now>` to the file name, in the same
directory as the original. -/
def bakPath (p : PyPath) (now : Nat) : PyPath :=
  { p with suffix := p.suffix ++ ".bak." ++ toString now }

/-- The bytes of a file classified the way `json.load` over a UTF-8 text
stream sees them.  `shutil.copy2` copies bytes verbatim, so copying
preserves this value exactly (byte identity). -/
inductive FileContent where
  /-- bytes that decode as UTF-8 and whose text parses as the JSON value `j` -/
  | jsonContent (j : Json)
  /-- bytes that decode as UTF-8 text `raw` that is not valid JSON -/
  | textContent (raw : String)
  /-- bytes that are not valid UTF-8, e.g. the one-byte file `[0xFF]`;
  reading them from a text-mode stream raises `UnicodeDecodeError` -/
  | binaryContent (bytes : List Nat)

/-- The backing file (`none` when it does not exist) and the backup files
created so far, each with its path. -/
structure FileState where
  main : Option FileContent
  backups : List (PyPath × FileContent)

/-- `TaskManager.load` over the file model.  `now` is `int(time.time())`;
`copyOk` says whether the `shutil.copy2` backup call succeeds — its own
failure is swallowed by the bare `except Exception: pass`.  The `Except`
layer records exceptions escaping to the caller: `FileNotFoundError` and
`json.JSONDecodeError` (also raised by hand when the parsed root is not a
list) are caught, but a file whose bytes are not valid UTF-8 raises
`UnicodeDecodeError` from `f.read()` inside `json.load`, which is neither
of those and therefore propagates. -/
def TaskManager.load (p : PyPath) (now : Nat) (copyOk : Bool) (fs : FileState) :
    Except String (List Json × FileState) :=
  match fs.main with
  | none => .ok ([], fs)
  | some (.jsonContent (.arr l)) => .ok (l, fs)
  | some (.jsonContent j) =>
      .ok ([], { fs with backups :=
        if copyOk then fs.backups ++ [(bakPath p now, .jsonContent j)] else fs.backups })
  | some (.textContent raw) =>
      .ok ([], { fs with backups :=
        if copyOk then fs.backups ++ [(bakPath p now, .textContent raw)] else fs.backups })
  | some (.binaryContent _) => .error "UnicodeDecodeError"

/-- The serialized document `json.dump` writes: the value plus the
serialization options used (`indent=2`, `ensure_ascii=False`). -/
structure JsonDump where
  value : Json
  indent : Option Nat
  ensureAscii : Bool

/-- The observable steps of `TaskManager.save`: which directory is created
(`mkdir(parents=True, exist_ok=True)` on `self.path.parent`), where the
temporary file lives, what is dumped into it, and whether the final
`shutil.move` is an atomic rename. -/
structure SavePlan where
  mkdirDir : List String
  tempDir : List String
  dump : JsonDump
  renamed : Bool

/-- `TaskManager.save`, procedural view.  `tempfile.NamedTemporaryFile` is
called without `dir=`, so the temporary file is created in the system
temporary directory `tmpDir` (`tempfile.gettempdir()`), independent of the
target path; `shutil.move` performs an atomic `os.rename` only when source
and destination are on the same filesystem (`sameFs`), and otherwise falls
back to a non-atomic copy-and-delete. -/
def TaskManager.savePlan (tasks : List TodoTask) (p : PyPath) (tmpDir : List String)
    (sameFs : List String → List String → Bool) : SavePlan :=
  { mkdirDir := p.dir
    tempDir := tmpDir
    dump := { value := .arr (tasks.map TodoTask.toJson), indent := some 2, ensureAscii := false }
    renamed := sameFs tmpDir p.dir }

/-- The post-state of `TaskManager.save` on the file model: the whole
document is written to the temporary file before the move, so after `save`
returns, the target holds exactly the serialized task array and the
backups are untouched. -/
def TaskManager.save (tasks : List TodoTask) (fs : FileState) : FileState :=
  { main := some (.jsonContent (.arr (tasks.map TodoTask.toJson))), backups := fs.backups }

/-- `TaskManager.next_id`: 1 on the empty list, else
`max(int(t.get("id", 0)) for t in tasks) + 1` (Python `max` folds the
generator starting from its first element). -/
def TaskManager.next_id (tasks : List TodoTask) : Int :=
  match tasks with
  | [] => 1
  | t :: rest => rest.foldl (fun acc u => max acc u.id) t.id + 1

/-- The fields a confirmed task-edit dialog returns (`self.result`). -/
structure DialogResult where
  title : String
  priority : String
  due_date : String
  deriving DecidableEq, Inhabited

/-- `TodoApp.add_task` after a confirmed dialog: allocate `next_id`, append
`{id, title, completed: False, priority, due_date}` at the end. -/
def TodoApp.add_task (tasks : List TodoTask) (r : DialogResult) : List TodoTask :=
  tasks ++ [{ id := TaskManager.next_id tasks, title := r.title, completed := false,
              priority := r.priority, due_date := r.due_date, subtasks := [] }]

/-- The ids assigned, in order, by a sequence of Add operations starting
from `tasks`. -/
def assignedIds (tasks : List TodoTask) : List DialogResult → List Int
  | [] => []
  | r :: rs => TaskManager.next_id tasks :: assignedIds (TodoApp.add_task tasks r) rs

/-- `priority_order = {"high": 0, "medium": 1, "low": 2, "": 3}` read with
`.get(priority, 3)`: any value other than the three named ones ranks 3,
the same as the empty priority. -/
def priority_order (p : String) : Nat :=
  if p = "high" then 0 else if p = "medium" then 1 else if p = "low" then 2 else 3

/-- Code-point lexicographic comparison of character lists — Python
`str.__lt__`, the comparison `list.sort` applies to the due-date keys. -/
def lexLt : List Char → List Char → Bool
  | [], [] => false
  | [], _ :: _ => true
  | _ :: _, [] => false
  | a :: as, b :: bs => if a < b then true else if b < a then false else lexLt as bs

/-- The due-date sort key of `date_key` in `get_sorted_task_indices`:
`"9999-99-99"` is substituted for an empty due date so that undated tasks
compare after dated ones. -/
def dateKeyOf (t : TodoTask) : List Char :=
  (if t.due_date = "" then "9999-99-99" else t.due_date).data

/-- `indexed_tasks.sort(key=priority_key)` is a stable sort by the
priority rank.  A stable sort by a key equals the unique sort by the total
order ⟨key, original position⟩, which is the relation used here. -/
def priR (a b : Nat × TodoTask) : Prop :=
  priority_order a.2.priority < priority_order b.2.priority ∨
    (priority_order a.2.priority = priority_order b.2.priority ∧ a.1 ≤ b.1)

instance : DecidableRel priR := fun a b => by unfold priR; infer_instance

/-- `indexed_tasks.sort(key=date_key)` as the total order ⟨key, original
position⟩, as above. -/
def dueR (a b : Nat × TodoTask) : Prop :=
  lexLt (dateKeyOf a.2) (dateKeyOf b.2) = true ∨
    (dateKeyOf a.2 = dateKeyOf b.2 ∧ a.1 ≤ b.1)

instance : DecidableRel dueR := fun a b => by unfold dueR; infer_instance

/-- `TodoApp.get_sorted_task_indices`: identity order for mode `"none"`
(and for any unrecognized mode, where the enumerated list is returned
unsorted), stable sort of `enumerate(self.tasks)` by priority rank or by
due-date key otherwise. -/
def TodoApp.get_sorted_task_indices (tasks : List TodoTask) (sort_mode : String) : List Nat :=
  if sort_mode = "none" then List.range tasks.length
  else
    let indexed := tasks.enum
    if sort_mode = "priority" then (List.insertionSort priR indexed).map Prod.fst
    else if sort_mode = "due_date" then (List.insertionSort dueR indexed).map Prod.fst
    else indexed.map Prod.fst

/-- `self.priority_symbols.get(priority, "")`.  The string constants are
the characters stored in the source file (the emoji bytes were
double-encoded there; decoding the file as UTF-8 yields exactly these
code points, which is what the program displays). -/
def prioritySymbol (p : String) : String :=
  if p = "high" then "ðŸ”´"
  else if p = "medium" then "ðŸŸ¡"
  else if p = "low" then "ðŸŸ¢"
  else ""

/-- `priority_symbol`, with the trailing space added when non-empty. -/
def symbolPart (p : String) : String :=
  let s := prioritySymbol p
  if s = "" then "" else s ++ " "

/-- The completion mark in a row (the check-mark characters as stored in
the source, or a space). -/
def statusMark (completed : Bool) : String :=
  if completed then "âœ“" else " "

/-- `due_date_str`: empty, or a space, the calendar symbol, a space and
the date. -/
def dueDatePart (due_date : String) : String :=
  if due_date = "" then "" else " " ++ "ðŸ“…" ++ " " ++ due_date

/-- `task_str` in `TodoApp.update_task_list`. -/
def taskRow (t : TodoTask) : String :=
  symbolPart t.priority ++ "[" ++ statusMark t.completed ++ "] " ++ t.title
    ++ dueDatePart t.due_date

/-- `sub_str` in `TodoApp.update_task_list` (indent and branch characters
as stored in the source). -/
def subtaskRow (st : Subtask) : String :=
  "    â””â”€ " ++ symbolPart st.priority ++ "["
    ++ statusMark st.completed ++ "] " ++ st.title ++ dueDatePart st.due_date

/-- The `index_map` entries one displayed task contributes: itself, then
one entry per subtask in stored order. -/
def taskBlock (i : Nat) (t : TodoTask) : List (Nat × Option Nat) :=
  (i, none) :: (List.range t.subtasks.length).map (fun k => (i, some k))

/-- The listbox rows one displayed task contributes, in lockstep with
`taskBlock`. -/
def rowBlock (t : TodoTask) : List String :=
  taskRow t :: t.subtasks.map subtaskRow

/-- The row → (task index, optional subtask index) map built by
`TodoApp.update_task_list`. -/
def TodoApp.index_map (tasks : List TodoTask) (sort_mode : String) : List (Nat × Option Nat) :=
  (TodoApp.get_sorted_task_indices tasks sort_mode).flatMap
    (fun i => taskBlock i (tasks.getD i default))

/-- The listbox rows inserted by `TodoApp.update_task_list`, top to
bottom. -/
def TodoApp.rows (tasks : List TodoTask) (sort_mode : String) : List String :=
  (TodoApp.get_sorted_task_indices tasks sort_mode).flatMap
    (fun i => rowBlock (tasks.getD i default))

/-- The row text displayed for a resolved map entry. -/
def renderEntry (tasks : List TodoTask) : Nat × Option Nat → String
  | (i, none) => taskRow (tasks.getD i default)
  | (i, some k) => subtaskRow ((tasks.getD i default).subtasks.getD k default)

/-- Flip of the completed flag on a task (`tasks[i]["completed"] =
not tasks[i].get("completed", False)`), all other fields kept. -/
def flipTask (t : TodoTask) : TodoTask := { t with completed := !t.completed }

/-- Flip of the completed flag on a subtask, all other fields kept. -/
def flipSubtask (st : Subtask) : Subtask := { st with completed := !st.completed }

/-- `TodoApp.toggle_task` after the selected row was resolved through
`index_map` to `(i, sub)`: flip `completed` on the parent task when `sub`
is `none`, on subtask `k` of task `i` when `sub` is `some k`. -/
def TodoApp.toggle_task (tasks : List TodoTask) (i : Nat) (sub : Option Nat) : List TodoTask :=
  match sub with
  | none => List.modify flipTask i tasks
  | some k =>
      List.modify (fun t => { t with subtasks := List.modify flipSubtask k t.subtasks }) i tasks

/-- `TodoApp.on_drag_start`: no drag source when a sort is active; a row
inside the map that resolves to a parent task becomes the drag source;
anything else (out of range, or a subtask row) yields no drag source. -/
def TodoApp.on_drag_start (tasks : List TodoTask) (sort_mode : String) (srcRow : Nat) :
    Option Nat :=
  if sort_mode ≠ "none" then none
  else
    match (TodoApp.index_map tasks sort_mode)[srcRow]? with
    | some (_, none) => some srcRow
    | _ => none

/-- One full drag gesture: `on_drag_start` at `srcRow` followed by
`on_drag_release` at `dstRow`.  The release reorders only when the drop
row is inside the map, differs from the drag row, and resolves to a parent
task; it pops the source task and reinserts it at the drop task's index,
decremented by one when the drop index lies after the source index. -/
def TodoApp.reorder (tasks : List TodoTask) (sort_mode : String) (srcRow dstRow : Nat) :
    List TodoTask :=
  match TodoApp.on_drag_start tasks sort_mode srcRow with
  | none => tasks
  | some sr =>
    if dstRow < (TodoApp.index_map tasks sort_mode).length ∧ dstRow ≠ sr then
      match (TodoApp.index_map tasks sort_mode)[sr]?,
          (TodoApp.index_map tasks sort_mode)[dstRow]? with
      | some (s, _), some (d, none) =>
        match tasks[s]? with
        | some t => (tasks.eraseIdx s).insertIdx (if s < d then d - 1 else d) t
        | none => tasks
      | _, _ => tasks
    else tasks

/-- The ten ASCII digits (CPython's `\d` in `_strptime` also matches other
Unicode decimal digits; only ASCII digits are modelled). -/
def digitChars : List Char := ['0', '1', '2', '3', '4', '5', '6', '7', '8', '9']

/-- ASCII digit test. -/
def isDig (c : Char) : Bool := decide (c ∈ digitChars)

/-- Numeric value of an ASCII digit (position in `digitChars`). -/
def digVal (c : Char) : Nat := digitChars.indexOf c

/-- Gregorian leap year, as `datetime` uses it. -/
def isLeap (y : Nat) : Bool := y % 4 == 0 && (y % 100 != 0 || y % 400 == 0)

/-- Days in a month, as `datetime` validates day-of-month. -/
def daysInMonth (y m : Nat) : Nat :=
  if m = 2 then (if isLeap y then 29 else 28)
  else if m = 4 ∨ m = 6 ∨ m = 9 ∨ m = 11 then 30
  else 31

/-- Final constructor-level validation of `datetime(y, m, d)`: year at
least 1 (year 0 raises), month already 1–12, day within the month. -/
def mkYmd (y1 y2 y3 y4 : Char) (m d : Nat) : Option (Nat × Nat × Nat) :=
  let y := 1000 * digVal y1 + 100 * digVal y2 + 10 * digVal y3 + digVal y4
  if 1 ≤ y ∧ 1 ≤ d ∧ d ≤ daysInMonth y m then some (y, m, d) else none

/-- `datetime.strptime(s, "%Y-%m-%d")` succeeding, by the shape of the
string: `%Y` matches exactly four digits, `%m` matches
`1[0-2]|0[1-9]|[1-9]` (one or two digits, value 1–12), `%d` matches
`3[01]|[12]\d|0[1-9]|[1-9]` (one or two digits, value 1–31), the hyphens
are literal, the whole string must be consumed, and `datetime(y, m, d)`
must then be a real calendar date.  Note the parser accepts single-digit
months and days, e.g. `2026-1-5`. -/
def strptimeList : List Char → Option (Nat × Nat × Nat) := fun chars =>
  match chars with
  | [y1, y2, y3, y4, h1, m1, h2, d1] =>
      if isDig y1 && isDig y2 && isDig y3 && isDig y4 && h1 == '-' && h2 == '-'
          && isDig m1 && decide (1 ≤ digVal m1) && isDig d1 && decide (1 ≤ digVal d1) then
        mkYmd y1 y2 y3 y4 (digVal m1) (digVal d1)
      else none
  | [y1, y2, y3, y4, p, q, r, u, v] =>
      if isDig y1 && isDig y2 && isDig y3 && isDig y4 && p == '-' && r == '-'
          && isDig q && decide (1 ≤ digVal q) && isDig u && isDig v
          && decide (1 ≤ 10 * digVal u + digVal v)
          && decide (10 * digVal u + digVal v ≤ 31) then
        mkYmd y1 y2 y3 y4 (digVal q) (10 * digVal u + digVal v)
      else if isDig y1 && isDig y2 && isDig y3 && isDig y4 && p == '-' && u == '-'
          && isDig q && isDig r && decide (1 ≤ 10 * digVal q + digVal r)
          && decide (10 * digVal q + digVal r ≤ 12) && isDig v
          && decide (1 ≤ digVal v) then
        mkYmd y1 y2 y3 y4 (10 * digVal q + digVal r) (digVal v)
      else none
  | [y1, y2, y3, y4, p, q, r, u, v, w] =>
      if isDig y1 && isDig y2 && isDig y3 && isDig y4 && p == '-' && u == '-'
          && isDig q && isDig r && decide (1 ≤ 10 * digVal q + digVal r)
          && decide (10 * digVal q + digVal r ≤ 12)
          && isDig v && isDig w && decide (1 ≤ 10 * digVal v + digVal w)
          && decide (10 * digVal v + digVal w ≤ 31) then
        mkYmd y1 y2 y3 y4 (10 * digVal q + digVal r) (10 * digVal v + digVal w)
      else none
  | _ => none

/-- `datetime.strptime(s, "%Y-%m-%d")` succeeding, applied to the string's
characters. -/
def strptimeYmd (s : String) : Option (Nat × Nat × Nat) := strptimeList s.data

/-- The literal `YYYY-MM-DD` shape of the specification's words: exactly
four digits, a hyphen, two digits, a hyphen, two digits.  (Spec-side
definition, used to compare the dialog's actual validation against the
claimed shape.) -/
def matchesYyyyMmDd (s : String) : Bool :=
  match s.data with
  | [y1, y2, y3, y4, h1, m1, m2, h2, d1, d2] =>
      isDig y1 && isDig y2 && isDig y3 && isDig y4 && h1 == '-'
        && isDig m1 && isDig m2 && h2 == '-' && isDig d1 && isDig d2
  | _ => false

/-- ASCII whitespace as `str.strip()` strips it (the Unicode whitespace
Python additionally strips is not modelled). -/
def pyWs (c : Char) : Bool :=
  c == ' ' || c == '\t' || c == '\n' || c == '\r' || c == '\u000b' || c == '\u000c'

/-- Strip leading and trailing whitespace from a character list. -/
def stripList (l : List Char) : List Char :=
  ((l.dropWhile pyWs).reverse.dropWhile pyWs).reverse

/-- `s.strip()`. -/
def pyStrip (s : String) : String := ⟨stripList s.data⟩

/-- The mutable state of a `TaskEditDialog`: the three input widgets, the
`result` attribute and whether the window has been destroyed. -/
structure DialogState where
  titleEntry : String
  priorityVar : String
  dateEntry : String
  result : Option DialogResult
  closed : Bool
  deriving DecidableEq

/-- `TaskEditDialog.__init__`: fields primed with the initial values, the
priority variable falling back to `"none"` when the initial priority is
empty; no result, window open. -/
def TaskEditDialog.init (initial_title initial_priority initial_due_date : String) :
    DialogState :=
  { titleEntry := initial_title
    priorityVar := if initial_priority ≠ "" then initial_priority else "none"
    dateEntry := initial_due_date
    result := none
    closed := false }

/-- `TaskEditDialog.on_ok`: strip the title and the date; a non-empty date
that `strptime` rejects shows a warning and returns (the dialog stays open,
nothing else changes); otherwise a non-empty stripped title sets the
result (priority `"none"` maps to `""`) and destroys the dialog, while an
empty stripped title silently stays open. -/
def TaskEditDialog.on_ok (s : DialogState) : DialogState :=
  let title := pyStrip s.titleEntry
  let due := pyStrip s.dateEntry
  if due ≠ "" ∧ (strptimeYmd due).isNone then s
  else if title ≠ "" then
    { s with
      result := some { title := title,
                       priority := if s.priorityVar ≠ "none" then s.priorityVar else "",
                       due_date := due },
      closed := true }
  else s

/-- `TaskEditDialog.on_cancel`: clear the result and destroy the dialog. -/
def TaskEditDialog.on_cancel (s : DialogState) : DialogState :=
  { s with result := none, closed := true }

/-- One user event on the dialog.  `setDate` covers typing as well as the
Today / Tomorrow / Clear helper buttons, which only rewrite the date
entry. -/
inductive DialogEvent where
  | setTitle (s : String)
  | setPriority (s : String)
  | setDate (s : String)
  | okClick
  | cancelClick

/-- One step of the dialog: a destroyed dialog processes nothing further;
otherwise field edits update the corresponding entry and the two buttons
run their handlers. -/
def TaskEditDialog.step (s : DialogState) (e : DialogEvent) : DialogState :=
  if s.closed then s
  else match e with
  | .setTitle t => { s with titleEntry := t }
  | .setPriority p => { s with priorityVar := p }
  | .setDate d => { s with dateEntry := d }
  | .okClick => TaskEditDialog.on_ok s
  | .cancelClick => TaskEditDialog.on_cancel s

/-- A whole dialog interaction: the initial state stepped through a
sequence of events (`get_result` then reads `result` once `closed`). -/
def TaskEditDialog.run (init : DialogState) (events : List DialogEvent) : DialogState :=
  events.foldl TaskEditDialog.step init

/-- A well-formed confirmed dialog result: the title is its own strip
(no surrounding whitespace) and non-empty, and the due date is empty or
accepted by the `%Y-%m-%d` parser. -/
def dialogResultOk (r : DialogResult) : Prop :=
  pyStrip r.title = r.title ∧ r.title ≠ "" ∧
    (r.due_date = "" ∨ (strptimeYmd r.due_date).isSome = true)

/-- A fresh task with the given id, title, priority and due date and no
subtasks (shape of the dict `TodoApp.add_task` creates). -/
def mkTask (id : Int) (title priority due_date : String) : TodoTask :=
  { id := id, title := title, completed := false, priority := priority,
    due_date := due_date, subtasks := [] }

/-- The `[A, B, C]` example list of the reorder property. -/
def abcTasks : List TodoTask := [mkTask 1 "A" "" "", mkTask 2 "B" "" "", mkTask 3 "C" "" ""]

/-- The due-date example list: dues `2026-02-01`, empty, `2026-01-01`. -/
def dueExample : List TodoTask :=
  [mkTask 1 "t0" "" "2026-02-01", mkTask 2 "t1" "" "", mkTask 3 "t2" "" "2026-01-01"]

/-- The priority-stability example list: priorities low, high, low, high. -/
def priExample : List TodoTask :=
  [mkTask 1 "t0" "low" "", mkTask 2 "t1" "high" "", mkTask 3 "t2" "low" "",
   mkTask 4 "t3" "high" ""]

/-- The `next_id` example list with ids 5 and 2. -/
def idExample : List TodoTask := [mkTask 5 "a" "" "", mkTask 2 "b" "" ""]

/-- The due date of the task at index `i` (the field the projection
compares). -/
def dueAt (tasks : List TodoTask) (i : Nat) : String := (tasks.getD i default).due_date

/-- The priority of the task at index `i`. -/
def prioAt (tasks : List TodoTask) (i : Nat) : String := (tasks.getD i default).priority

/-- `tempfile.gettempdir()` on the reference platform. -/
def linuxTmpDir : List String := ["tmp"]

/-- A machine whose top-level directories are distinct mount points (the
common situation where `/tmp` is a tmpfs separate from `/home`): two paths
are on the same filesystem exactly when their first component agrees. -/
def mountFs : List String → List String → Bool := fun a b => a.take 1 == b.take 1

/-- A backing file under the user's home directory. -/
def homePath : PyPath := ⟨["home", "user"], "tasks", ".json"⟩

/-- A small list whose first task owns two subtasks, for exercising the
projection's flattening. -/
def subExample : List TodoTask :=
  [{ id := 1, title := "P", completed := false, priority := "", due_date := "",
     subtasks := [⟨"s1", false, "", ""⟩, ⟨"s2", true, "", ""⟩] },
   mkTask 2 "Q" "" ""]

/-! ### General lemmas -/

theorem modify_modify_of_invol {α : Type} (f : α → α) (hf : ∀ a, f (f a) = a)
    (n : Nat) (l : List α) : List.modify f n (List.modify f n l) = l := by
  apply List.ext_getElem?
  intro m
  rw [List.getElem?_modify, List.getElem?_modify]
  by_cases h : n = m <;> cases l[m]? <;> simp [h, hf]

theorem flipTask_invol (t : TodoTask) : flipTask (flipTask t) = t := by
  cases t; simp [flipTask]

theorem flipSubtask_invol (st : Subtask) : flipSubtask (flipSubtask st) = st := by
  cases st; simp [flipSubtask]

theorem foldl_max_init_le (rest : List TodoTask) :
    ∀ a : Int, a ≤ rest.foldl (fun acc u => max acc u.id) a := by
  induction rest with
  | nil => intro a; exact le_refl a
  | cons u us ih => intro a; exact le_trans (le_max_left a u.id) (ih (max a u.id))

theorem mem_id_le_foldl_max (rest : List TodoTask) :
    ∀ (a : Int) (u : TodoTask), u ∈ rest →
      u.id ≤ rest.foldl (fun acc u => max acc u.id) a := by
  induction rest with
  | nil => intro a u h; cases h
  | cons v vs ih =>
    intro a u h
    rcases List.mem_cons.mp h with h | h
    · subst h; exact le_trans (le_max_right a u.id) (foldl_max_init_le vs _)
    · exact ih _ u h

theorem id_lt_next_id (tasks : List TodoTask) (t : TodoTask) (h : t ∈ tasks) :
    t.id < TaskManager.next_id tasks := by
  cases tasks with
  | nil => cases h
  | cons t0 rest =>
    show t.id < rest.foldl (fun acc u => max acc u.id) t0.id + 1
    rcases List.mem_cons.mp h with h | h
    · subst h; have := foldl_max_init_le rest t.id; omega
    · have := mem_id_le_foldl_max rest t0.id t h; omega

theorem next_id_lt_next_id_add (tasks : List TodoTask) (r : DialogResult) :
    TaskManager.next_id tasks < TaskManager.next_id (TodoApp.add_task tasks r) := by
  have hmem : mkTask (TaskManager.next_id tasks) r.title r.priority r.due_date ∈
      TodoApp.add_task tasks r := by
    unfold TodoApp.add_task mkTask
    exact List.mem_append_right _ (List.mem_singleton.mpr rfl)
  simpa [mkTask] using id_lt_next_id _ _ hmem

theorem next_id_le_assigned : ∀ (ds : List DialogResult) (tasks : List TodoTask) (a : Int),
    a ∈ assignedIds tasks ds → TaskManager.next_id tasks ≤ a := by
  intro ds
  induction ds with
  | nil => intro tasks a h; cases h
  | cons r rs ih =>
    intro tasks a h
    rcases List.mem_cons.mp h with h | h
    · exact h ▸ le_refl _
    · exact le_trans (le_of_lt (next_id_lt_next_id_add tasks r)) (ih _ a h)

theorem decode_encode_sub (st : Subtask) : decodeSubtask (Subtask.toJson st) = st := by
  cases st
  simp [decodeSubtask, Subtask.toJson, Json.getStr, Json.getBool, Json.get, jLookup]

theorem decode_encode (t : TodoTask) : decodeTask (TodoTask.toJson t) = t := by
  cases t with
  | mk id title completed priority due_date subtasks =>
    simp only [decodeTask, TodoTask.toJson, Json.getInt, Json.getStr, Json.getBool,
      Json.getArr, Json.get, jLookup, List.map_map]
    simp only [TodoTask.mk.injEq]
    refine ⟨by simp, by simp, by simp, by simp, by simp, ?_⟩
    have h1 : List.map (decodeSubtask ∘ Subtask.toJson) subtasks
        = List.map (fun st => st) subtasks :=
      List.map_congr_left fun st _ => decode_encode_sub st
    simpa using h1

/-! ### C10: toggle -/

/-- C10: Toggle flips the completed flag of exactly the resolved task or
subtask and nothing else: applying it twice to the same target restores the
list; records other than the target are untouched; toggling a parent maps
its record through `flipTask`, which changes only `completed` (in
particular the subtasks, and hence their completion, are unchanged);
toggling a subtask rewrites only the parent's subtask list through a
pointwise `flipSubtask` at the target position, leaving the parent's own
`completed` and all other subtasks unchanged. -/
theorem toggle_spec :
    (∀ (tasks : List TodoTask) (i : Nat) (sub : Option Nat),
        TodoApp.toggle_task (TodoApp.toggle_task tasks i sub) i sub = tasks) ∧
    (∀ (tasks : List TodoTask) (i : Nat) (sub : Option Nat) (j : Nat), j ≠ i →
        (TodoApp.toggle_task tasks i sub)[j]? = tasks[j]?) ∧
    (∀ (tasks : List TodoTask) (i : Nat),
        (TodoApp.toggle_task tasks i none)[i]? = Option.map flipTask tasks[i]?) ∧
    (∀ t : TodoTask, (flipTask t).completed = !t.completed ∧ (flipTask t).id = t.id ∧
        (flipTask t).title = t.title ∧ (flipTask t).priority = t.priority ∧
        (flipTask t).due_date = t.due_date ∧ (flipTask t).subtasks = t.subtasks) ∧
    (∀ (tasks : List TodoTask) (i k : Nat),
        (TodoApp.toggle_task tasks i (some k))[i]? =
          Option.map (fun t => { t with subtasks := List.modify flipSubtask k t.subtasks })
            tasks[i]?) ∧
    (∀ (sts : List Subtask) (k j : Nat), j ≠ k →
        (List.modify flipSubtask k sts)[j]? = sts[j]?) ∧
    (∀ (sts : List Subtask) (k : Nat),
        (List.modify flipSubtask k sts)[k]? = Option.map flipSubtask sts[k]?) ∧
    (∀ st : Subtask, (flipSubtask st).completed = !st.completed ∧
        (flipSubtask st).title = st.title ∧ (flipSubtask st).priority = st.priority ∧
        (flipSubtask st).due_date = st.due_date) := by
  refine ⟨?_, ?_, ?_, ?_, ?_, ?_, ?_, ?_⟩
  · intro tasks i sub
    cases sub with
    | none => exact modify_modify_of_invol flipTask flipTask_invol i tasks
    | some k =>
      refine modify_modify_of_invol _ (fun t => ?_) i tasks
      cases t with
      | mk id title completed priority due_date subtasks =>
        simp [modify_modify_of_invol flipSubtask flipSubtask_invol k subtasks]
  · intro tasks i sub j hji
    have hij : ¬ i = j := fun h => hji h.symm
    cases sub <;>
      (simp only [TodoApp.toggle_task, List.getElem?_modify];
        cases tasks[j]? <;> simp [hij])
  · intro tasks i
    simp only [TodoApp.toggle_task, List.getElem?_modify]
    cases tasks[i]? <;> simp
  · intro t; cases t; exact ⟨rfl, rfl, rfl, rfl, rfl, rfl⟩
  · intro tasks i k
    simp only [TodoApp.toggle_task, List.getElem?_modify]
    cases tasks[i]? <;> simp
  · intro sts k j hjk
    have hkj : ¬ k = j := fun h => hjk h.symm
    rw [List.getElem?_modify]
    cases sts[j]? <;> simp [hkj]
  · intro sts k
    rw [List.getElem?_modify]
    cases sts[k]? <;> simp
  · intro st; cases st; exact ⟨rfl, rfl, rfl, rfl⟩

/-- C10 witness: the hypothesis-bearing parts of `toggle_spec` applied at
concrete inputs. -/
theorem toggle_spec_witness :
    (TodoApp.toggle_task abcTasks 0 none)[1]? = abcTasks[1]? ∧
    (List.modify flipSubtask 0 [⟨"s", false, "", ""⟩, ⟨"u", true, "", ""⟩])[1]? =
      [(⟨"s", false, "", ""⟩ : Subtask), ⟨"u", true, "", ""⟩][1]? :=
  ⟨toggle_spec.2.1 abcTasks 0 none 1 (by decide),
   toggle_spec.2.2.2.2.2.1 [⟨"s", false, "", ""⟩, ⟨"u", true, "", ""⟩] 0 1 (by decide)⟩

/-! ### C5: id allocation -/

/-- C5: `next_id` returns 1 on the empty list and `1 + max id` otherwise
(`next_id([]) = 1`, `next_id([{id:5},{id:2}]) = 6`); every id present is
strictly below `next_id`, so along any sequence of Add operations every
newly assigned id exceeds all ids present at the moment of assignment and
the assigned ids are strictly increasing — never reused. -/
theorem next_id_monotone :
    TaskManager.next_id [] = 1 ∧
    TaskManager.next_id idExample = 6 ∧
    (∀ (tasks : List TodoTask) (t : TodoTask), t ∈ tasks →
        t.id < TaskManager.next_id tasks) ∧
    (∀ (tasks : List TodoTask) (ds : List DialogResult),
        (∀ t ∈ tasks, ∀ a ∈ assignedIds tasks ds, t.id < a) ∧
        (assignedIds tasks ds).Pairwise (· < ·)) := by
  refine ⟨rfl, by decide, fun tasks t h => id_lt_next_id tasks t h, ?_⟩
  intro tasks ds
  constructor
  · intro t ht a ha
    exact lt_of_lt_of_le (id_lt_next_id tasks t ht) (next_id_le_assigned ds tasks a ha)
  · induction ds generalizing tasks with
    | nil => exact List.Pairwise.nil
    | cons r rs ih =>
      refine List.Pairwise.cons ?_ (ih (TodoApp.add_task tasks r))
      intro a ha
      exact lt_of_lt_of_le (next_id_lt_next_id_add tasks r) (next_id_le_assigned rs _ a ha)

/-- C5 witness: the hypothesis-bearing part of `next_id_monotone` at a
concrete input. -/
theorem next_id_monotone_witness :
    (mkTask 5 "a" "" "").id < TaskManager.next_id idExample :=
  next_id_monotone.2.2.1 idExample (mkTask 5 "a" "" "") (by decide)

/-! ### C3: save -/

/-- C3 counterexample: for a backing file under `/home/user` on a machine
where `/tmp` is its own mount, the temporary file `save` writes is NOT in
the target's directory tree (it is in the system temporary directory), and
the final `shutil.move` is not an atomic rename — refuting the claim that
save writes a temporary file in the same directory tree and atomically
replaces the target. -/
theorem save_not_sibling_refuted :
    (TaskManager.savePlan [] homePath linuxTmpDir mountFs).tempDir ≠ homePath.dir ∧
    (TaskManager.savePlan [] homePath linuxTmpDir mountFs).renamed = false := by
  exact ⟨by decide, rfl⟩

/-- C3 (amended): `save` serializes the full task sequence with 2-space
indentation and `ensure_ascii=False`, creates the target's parent
directories, writes the complete document to a temporary file in the
SYSTEM temporary directory (not the target's tree), and then moves it over
the target; the move is an atomic rename exactly when the temporary
directory and the target are on the same filesystem, and after a completed
`save` the target holds exactly the serialized document with backups
untouched. -/
theorem save_write_plan (tasks : List TodoTask) (p : PyPath) (tmpDir : List String)
    (sameFs : List String → List String → Bool) (fs : FileState) :
    (TaskManager.savePlan tasks p tmpDir sameFs).dump.value =
        .arr (tasks.map TodoTask.toJson) ∧
    (TaskManager.savePlan tasks p tmpDir sameFs).dump.indent = some 2 ∧
    (TaskManager.savePlan tasks p tmpDir sameFs).dump.ensureAscii = false ∧
    (TaskManager.savePlan tasks p tmpDir sameFs).mkdirDir = p.dir ∧
    (TaskManager.savePlan tasks p tmpDir sameFs).tempDir = tmpDir ∧
    ((TaskManager.savePlan tasks p tmpDir sameFs).renamed = true ↔
        sameFs tmpDir p.dir = true) ∧
    (TaskManager.save tasks fs).main =
        some (.jsonContent (.arr (tasks.map TodoTask.toJson))) ∧
    (TaskManager.save tasks fs).backups = fs.backups :=
  ⟨rfl, rfl, rfl, rfl, rfl, Iff.rfl, rfl, rfl⟩

/-! ### C2: load -/

/-- C2 counterexample: a backing file whose bytes are not valid UTF-8
(e.g. the one-byte file `0xFF`) makes `load` raise `UnicodeDecodeError` to
its caller (`f.read()` inside `json.load` raises it, and it is neither
`FileNotFoundError` nor `json.JSONDecodeError`), refuting both "never
raises" and "returns the empty sequence for content that is not valid
JSON". -/
theorem load_raises_on_undecodable :
    TaskManager.load ⟨["home", "user"], "tasks", ".json"⟩ 1700000000 true
      { main := some (.binaryContent [255]), backups := [] } =
      .error "UnicodeDecodeError" := rfl

/-- C2 (amended): for a backing file whose bytes decode as UTF-8 (or a
missing file), `load` never raises: a missing file yields the empty list
and no backup; a valid JSON array yields its elements unchanged; any other
content — text that is not valid JSON, or a JSON document whose root is
not an array — yields the empty list after copying the corrupt content
byte-identically to exactly one sibling backup named
`<name>.bak.<unix-epoch-seconds>`, a copy whose own failure is swallowed.
Bytes that are not valid UTF-8 instead raise `UnicodeDecodeError`. -/
theorem load_recovery (p : PyPath) (now : Nat) (copyOk : Bool) (fs : FileState)
    (h : ∀ b, fs.main ≠ some (.binaryContent b)) :
    (∃ r, TaskManager.load p now copyOk fs = .ok r) ∧
    (fs.main = none → TaskManager.load p now copyOk fs = .ok ([], fs)) ∧
    (∀ l, fs.main = some (.jsonContent (.arr l)) →
        TaskManager.load p now copyOk fs = .ok (l, fs)) ∧
    (∀ c, fs.main = some c → (∀ l, c ≠ .jsonContent (.arr l)) →
        TaskManager.load p now copyOk fs = .ok ([], { fs with backups :=
          if copyOk then fs.backups ++ [(bakPath p now, c)] else fs.backups })) ∧
    (bakPath p now).dir = p.dir ∧
    (bakPath p now).fileName = p.fileName ++ ".bak." ++ toString now := by
  refine ⟨?_, ?_, ?_, ?_, rfl, ?_⟩
  · rcases fs with ⟨main, backups⟩
    cases main with
    | none => exact ⟨_, rfl⟩
    | some c =>
      cases c with
      | jsonContent j =>
        cases j with
        | null => exact ⟨_, rfl⟩
        | bool b => exact ⟨_, rfl⟩
        | num n => exact ⟨_, rfl⟩
        | str s => exact ⟨_, rfl⟩
        | arr l => exact ⟨_, rfl⟩
        | obj fields => exact ⟨_, rfl⟩
      | textContent raw => exact ⟨_, rfl⟩
      | binaryContent b => exact absurd rfl (h b)
  · intro hm; simp [TaskManager.load, hm]
  · intro l hm; simp [TaskManager.load, hm]
  · intro c hm hne
    cases c with
    | jsonContent j =>
      cases j with
      | null => simp [TaskManager.load, hm]
      | bool b => simp [TaskManager.load, hm]
      | num n => simp [TaskManager.load, hm]
      | str s => simp [TaskManager.load, hm]
      | arr l => exact absurd rfl (hne l)
      | obj fields => simp [TaskManager.load, hm]
    | textContent raw => simp [TaskManager.load, hm]
    | binaryContent b => exact absurd hm (h b)
  · show p.stem ++ (p.suffix ++ ".bak." ++ toString now) =
      p.stem ++ p.suffix ++ ".bak." ++ toString now
    simp [String.append_assoc]

/-- C2 witness: `load_recovery` applied to a concrete corrupt (but
UTF-8-decodable) file. -/
theorem load_recovery_witness :
    TaskManager.load ⟨["data"], "tasks", ".json"⟩ 5 true
        { main := some (.textContent "not json"), backups := [] } =
      .ok ([], { main := some (.textContent "not json"),
                 backups := [(⟨["data"], "tasks", ".json.bak.5"⟩, .textContent "not json")] }) :=
  (load_recovery ⟨["data"], "tasks", ".json"⟩ 5 true
      { main := some (.textContent "not json"), backups := [] }
      (fun b => by simp)).2.2.2.1 (.textContent "not json") rfl (fun l => by simp)

/-! ### C4: round trip -/

/-- C4: saving any well-formed task sequence and loading it back returns
exactly the dumped array, and reading that array back through the app's
defaulted field reads reconstructs the original sequence — including the
empty sequence, nested subtasks and arbitrary (unicode) titles, since
titles are arbitrary strings here. -/
theorem save_load_round_trip (tasks : List TodoTask) (fs : FileState) (p : PyPath)
    (now : Nat) (copyOk : Bool) :
    TaskManager.load p now copyOk (TaskManager.save tasks fs) =
      .ok (tasks.map TodoTask.toJson, TaskManager.save tasks fs) ∧
    (tasks.map TodoTask.toJson).map decodeTask = tasks := by
  constructor
  · rfl
  · rw [List.map_map]
    have h : tasks.map (decodeTask ∘ TodoTask.toJson) = tasks.map id :=
      List.map_congr_left (fun t _ => decode_encode t)
    simpa using h

/-! ### Lexicographic comparison lemmas -/

theorem lexLt_cons_of_lt {a b : Char} (h : a < b) (xs ys : List Char) :
    lexLt (a :: xs) (b :: ys) = true := by
  simp [lexLt, h]

theorem lexLt_cons_self (a : Char) (xs ys : List Char) :
    lexLt (a :: xs) (a :: ys) = lexLt xs ys := by
  simp [lexLt, lt_irrefl]

theorem lexLt_irrefl (l : List Char) : lexLt l l = false := by
  induction l with
  | nil => rfl
  | cons a as ih => simp [lexLt, lt_irrefl, ih]

theorem lexLt_asymm : ∀ a b : List Char, lexLt a b = true → lexLt b a = true → False := by
  intro a
  induction a with
  | nil =>
    intro b h1 h2
    cases b with
    | nil => simp [lexLt] at h1
    | cons y ys => simp [lexLt] at h2
  | cons x xs ih =>
    intro b h1 h2
    cases b with
    | nil => simp [lexLt] at h1
    | cons y ys =>
      simp only [lexLt] at h1 h2
      by_cases hxy : x < y
      · simp [hxy, lt_asymm hxy] at h2
      · by_cases hyx : y < x
        · simp [hxy, hyx] at h1
        · simp [hxy, hyx] at h1 h2
          exact ih ys h1 h2

theorem lexLt_trans : ∀ a b c : List Char,
    lexLt a b = true → lexLt b c = true → lexLt a c = true := by
  intro a
  induction a with
  | nil =>
    intro b c h1 h2
    cases b with
    | nil => exact h2
    | cons y ys =>
      cases c with
      | nil => simp [lexLt] at h2
      | cons z zs => rfl
  | cons x xs ih =>
    intro b c h1 h2
    cases b with
    | nil => simp [lexLt] at h1
    | cons y ys =>
      cases c with
      | nil => simp [lexLt] at h2
      | cons z zs =>
        simp only [lexLt] at h1 h2 ⊢
        by_cases hxy : x < y
        · by_cases hyz : y < z
          · simp [lt_trans hxy hyz]
          · by_cases hzy : z < y
            · simp [hyz, hzy] at h2
            · have hyz' : y = z := le_antisymm (not_lt.mp hzy) (not_lt.mp hyz)
              subst hyz'
              simp [hxy]
        · by_cases hyx : y < x
          · simp [hxy, hyx] at h1
          · have hxy' : x = y := le_antisymm (not_lt.mp hyx) (not_lt.mp hxy)
            subst hxy'
            simp [lt_irrefl] at h1
            by_cases hyz : x < z
            · simp [hyz]
            · by_cases hzy : z < x
              · simp [hyz, hzy] at h2
              · have hxz : x = z := le_antisymm (not_lt.mp hzy) (not_lt.mp hyz)
                subst hxz
                simp [lt_irrefl] at h2 ⊢
                exact ih ys zs h1 h2

theorem lexLt_connex : ∀ a b : List Char,
    lexLt a b = false → lexLt b a = false → a = b := by
  intro a
  induction a with
  | nil =>
    intro b h1 h2
    cases b with
    | nil => rfl
    | cons y ys => simp [lexLt] at h1
  | cons x xs ih =>
    intro b h1 h2
    cases b with
    | nil => simp [lexLt] at h2
    | cons y ys =>
      simp only [lexLt] at h1 h2
      by_cases hxy : x < y
      · simp [hxy] at h1
      · by_cases hyx : y < x
        · simp [hxy, hyx] at h2
        · have hxy' : x = y := le_antisymm (not_lt.mp hyx) (not_lt.mp hxy)
          subst hxy'
          simp [lt_irrefl] at h1 h2
          rw [ih ys h1 h2]

/-! ### The sentinel exceeds every accepted date string -/

theorem mem_of_isDig {c : Char} (h : isDig c = true) : c ∈ digitChars :=
  of_decide_eq_true h

theorem digit_ne_nine_lt (c : Char) (hc : c ∈ digitChars) (h9 : c ≠ '9') : c < '9' := by
  fin_cases hc <;> first | decide | simp_all

theorem lexLt_digit_step (c : Char) (xs ys : List Char) (hc : c ∈ digitChars)
    (hrec : c = '9' → lexLt xs ys = true) : lexLt (c :: xs) ('9' :: ys) = true := by
  by_cases h : c = '9'
  · subst h; rw [lexLt_cons_self]; exact hrec rfl
  · exact lexLt_cons_of_lt (digit_ne_nine_lt c hc h) xs ys

theorem digVal_nine : digVal '9' = 9 := by decide

theorem valid_list_lt_sentinel (l : List Char) (h : (strptimeList l).isSome = true) :
    lexLt l ['9', '9', '9', '9', '-', '9', '9', '-', '9', '9'] = true := by
  unfold strptimeList at h
  split at h
  case h_1 y1 y2 y3 y4 h1 m1 h2 d1 =>
    split at h
    case isTrue hcond =>
      simp only [isDig, Bool.and_eq_true, decide_eq_true_eq, beq_iff_eq, and_assoc] at hcond
      obtain ⟨hy1, hy2, hy3, hy4, hh1, hh2, hm1, hm1v, hd1, hd1v⟩ := hcond
      subst hh1; subst hh2
      refine lexLt_digit_step _ _ _ hy1 (fun _ => ?_)
      refine lexLt_digit_step _ _ _ hy2 (fun _ => ?_)
      refine lexLt_digit_step _ _ _ hy3 (fun _ => ?_)
      refine lexLt_digit_step _ _ _ hy4 (fun _ => ?_)
      rw [lexLt_cons_self]
      refine lexLt_digit_step _ _ _ hm1 (fun _ => ?_)
      exact lexLt_cons_of_lt (by decide) _ _
    case isFalse => simp at h
  case h_2 y1 y2 y3 y4 p q r u v =>
    split at h
    case isTrue hcond =>
      simp only [isDig, Bool.and_eq_true, decide_eq_true_eq, beq_iff_eq, and_assoc] at hcond
      obtain ⟨hy1, hy2, hy3, hy4, hp, hr, hq, hqv, hu, hv, hd1, hd2⟩ := hcond
      subst hp; subst hr
      refine lexLt_digit_step _ _ _ hy1 (fun _ => ?_)
      refine lexLt_digit_step _ _ _ hy2 (fun _ => ?_)
      refine lexLt_digit_step _ _ _ hy3 (fun _ => ?_)
      refine lexLt_digit_step _ _ _ hy4 (fun _ => ?_)
      rw [lexLt_cons_self]
      refine lexLt_digit_step _ _ _ hq (fun _ => ?_)
      exact lexLt_cons_of_lt (by decide) _ _
    case isFalse =>
      split at h
      case isTrue hcond =>
        simp only [isDig, Bool.and_eq_true, decide_eq_true_eq, beq_iff_eq, and_assoc] at hcond
        obtain ⟨hy1, hy2, hy3, hy4, hp, hu, hq, hr, hmlo, hmhi, hv, hvv⟩ := hcond
        subst hp; subst hu
        refine lexLt_digit_step _ _ _ hy1 (fun _ => ?_)
        refine lexLt_digit_step _ _ _ hy2 (fun _ => ?_)
        refine lexLt_digit_step _ _ _ hy3 (fun _ => ?_)
        refine lexLt_digit_step _ _ _ hy4 (fun _ => ?_)
        rw [lexLt_cons_self]
        have hq9 : q ≠ '9' := by
          intro e; subst e; rw [digVal_nine] at hmhi; omega
        exact lexLt_cons_of_lt (digit_ne_nine_lt q hq hq9) _ _
      case isFalse => simp at h
  case h_3 y1 y2 y3 y4 p q r u v w =>
    split at h
    case isTrue hcond =>
      simp only [isDig, Bool.and_eq_true, decide_eq_true_eq, beq_iff_eq, and_assoc] at hcond
      obtain ⟨hy1, hy2, hy3, hy4, hp, hu, hq, hr, hmlo, hmhi, hv, hw, hdlo, hdhi⟩ := hcond
      subst hp; subst hu
      refine lexLt_digit_step _ _ _ hy1 (fun _ => ?_)
      refine lexLt_digit_step _ _ _ hy2 (fun _ => ?_)
      refine lexLt_digit_step _ _ _ hy3 (fun _ => ?_)
      refine lexLt_digit_step _ _ _ hy4 (fun _ => ?_)
      rw [lexLt_cons_self]
      have hq9 : q ≠ '9' := by
        intro e; subst e; rw [digVal_nine] at hmhi; omega
      exact lexLt_cons_of_lt (digit_ne_nine_lt q hq hq9) _ _
    case isFalse => simp at h
  case h_4 => simp at h

theorem valid_lt_sentinel (s : String) (h : (strptimeYmd s).isSome = true) :
    lexLt s.data "9999-99-99".data = true := by
  have hsent : "9999-99-99".data = ['9', '9', '9', '9', '-', '9', '9', '-', '9', '9'] := rfl
  rw [hsent]
  exact valid_list_lt_sentinel s.data h

/-! ### The stable sorts as total orders -/

instance : IsTrans (Nat × TodoTask) priR :=
  ⟨by intro a b c hab hbc; unfold priR at hab hbc ⊢; omega⟩

instance : IsTotal (Nat × TodoTask) priR :=
  ⟨by intro a b; unfold priR; omega⟩

instance : IsTrans (Nat × TodoTask) dueR := ⟨by
  intro a b c hab hbc
  unfold dueR at hab hbc ⊢
  rcases hab with h1 | ⟨e1, i1⟩
  · rcases hbc with h2 | ⟨e2, i2⟩
    · exact Or.inl (lexLt_trans _ _ _ h1 h2)
    · exact Or.inl (e2 ▸ h1)
  · rcases hbc with h2 | ⟨e2, i2⟩
    · exact Or.inl (e1.symm ▸ h2)
    · exact Or.inr ⟨e1.trans e2, le_trans i1 i2⟩⟩

instance : IsTotal (Nat × TodoTask) dueR := ⟨by
  intro a b
  unfold dueR
  by_cases hx : lexLt (dateKeyOf a.2) (dateKeyOf b.2) = true
  · exact Or.inl (Or.inl hx)
  · by_cases hy : lexLt (dateKeyOf b.2) (dateKeyOf a.2) = true
    · exact Or.inr (Or.inl hy)
    · have he := lexLt_connex _ _ (Bool.not_eq_true _ ▸ hx) (Bool.not_eq_true _ ▸ hy)
      rcases Nat.le_total a.1 b.1 with hle | hle
      · exact Or.inl (Or.inr ⟨he, hle⟩)
      · exact Or.inr (Or.inr ⟨he.symm, hle⟩)⟩

theorem proj_pair_rel (R : Nat × TodoTask → Nat × TodoTask → Prop) [DecidableRel R]
    [IsTotal (Nat × TodoTask) R] [IsTrans (Nat × TodoTask) R]
    (tasks : List TodoTask) (p q i j : Nat)
    (hp : ((List.insertionSort R tasks.enum).map Prod.fst)[p]? = some i)
    (hq : ((List.insertionSort R tasks.enum).map Prod.fst)[q]? = some j)
    (hpq : p < q) :
    R (i, tasks.getD i default) (j, tasks.getD j default) ∧ i ≠ j := by
  set sorted := List.insertionSort R tasks.enum with hs
  rw [List.getElem?_map] at hp hq
  rcases Option.map_eq_some'.mp hp with ⟨pr, hpr, hpr1⟩
  rcases Option.map_eq_some'.mp hq with ⟨qr, hqr, hqr1⟩
  rcases List.getElem?_eq_some_iff.mp hpr with ⟨hplen, hpe⟩
  rcases List.getElem?_eq_some_iff.mp hqr with ⟨hqlen, hqe⟩
  have hsorted : List.Pairwise R sorted := List.sorted_insertionSort R tasks.enum
  have hrel : R sorted[p] sorted[q] :=
    List.pairwise_iff_getElem.mp hsorted p q hplen hqlen hpq
  have hmem : ∀ x : Nat × TodoTask, x ∈ sorted → tasks[x.1]? = some x.2 := by
    intro x hx
    exact List.mem_enum_iff_getElem?.mp
      ((List.perm_insertionSort R tasks.enum).mem_iff.mp hx)
  have hpmem := hmem sorted[p] (List.getElem_mem hplen)
  have hqmem := hmem sorted[q] (List.getElem_mem hqlen)
  rw [hpe, hpr1] at hpmem
  rw [hqe, hqr1] at hqmem
  have hpr_eq : pr = (i, tasks.getD i default) := by
    have h2 : tasks.getD i default = pr.2 := by
      rw [List.getD_eq_getElem?_getD, hpmem]; rfl
    exact Prod.ext hpr1 h2.symm
  have hqr_eq : qr = (j, tasks.getD j default) := by
    have h2 : tasks.getD j default = qr.2 := by
      rw [List.getD_eq_getElem?_getD, hqmem]; rfl
    exact Prod.ext hqr1 h2.symm
  constructor
  · rw [← hpr_eq, ← hqr_eq, ← hpe, ← hqe]; exact hrel
  · intro hij
    have hperm : (sorted.map Prod.fst).Perm (List.range tasks.length) := by
      have hpm := (List.perm_insertionSort R tasks.enum).map Prod.fst
      rwa [List.enum_map_fst] at hpm
    have hnodup : (sorted.map Prod.fst).Nodup := hperm.nodup_iff.mpr (List.nodup_range _)
    have hplen' : p < (sorted.map Prod.fst).length := by simpa using hplen
    have hqlen' : q < (sorted.map Prod.fst).length := by simpa using hqlen
    have hpv : (sorted.map Prod.fst)[p] = i := by
      rw [List.getElem_map, hpe, hpr1]
    have hqv : (sorted.map Prod.fst)[q] = j := by
      rw [List.getElem_map, hqe, hqr1]
    have hpq' : p = q := hnodup.getElem_inj_iff.mp (by rw [hpv, hqv, hij])
    omega

theorem dateKeyOf_empty {t : TodoTask} (h : t.due_date = "") :
    dateKeyOf t = "9999-99-99".data := by
  unfold dateKeyOf; rw [h]; simp

theorem dateKeyOf_dated {t : TodoTask} (h : t.due_date ≠ "") :
    dateKeyOf t = t.due_date.data := by
  unfold dateKeyOf; rw [if_neg h]

/-! ### C7: priority projection -/

/-- C7: projection in sort mode `priority` is a stable sort of the
top-level tasks into the tier order high, medium, low, unset: the example
`[low, high, low, high]` projects as `[1, 3, 0, 2]` (high#1, high#2,
low#1, low#2); any priority string other than the three named ones ranks
exactly like the empty priority (and the projection only produces indices,
so stored values are untouched); in general the projection is a
permutation of all indices in which an earlier output position has a
strictly smaller rank or the same rank and a smaller original index
(stability). -/
theorem priority_projection :
    TodoApp.get_sorted_task_indices priExample "priority" = [1, 3, 0, 2] ∧
    (∀ pstr : String, pstr ≠ "high" → pstr ≠ "medium" → pstr ≠ "low" →
        priority_order pstr = priority_order "") ∧
    ∀ tasks : List TodoTask,
      (TodoApp.get_sorted_task_indices tasks "priority").Perm (List.range tasks.length) ∧
      ∀ p q i j : Nat, (TodoApp.get_sorted_task_indices tasks "priority")[p]? = some i →
        (TodoApp.get_sorted_task_indices tasks "priority")[q]? = some j → p < q →
        (priority_order (prioAt tasks i) < priority_order (prioAt tasks j) ∨
          (priority_order (prioAt tasks i) = priority_order (prioAt tasks j) ∧ i < j)) := by
  refine ⟨by decide, ?_, ?_⟩
  · intro pstr h1 h2 h3; simp [priority_order, h1, h2, h3]
  · intro tasks
    have hmode : TodoApp.get_sorted_task_indices tasks "priority" =
        (List.insertionSort priR tasks.enum).map Prod.fst := by
      simp [TodoApp.get_sorted_task_indices]
    constructor
    · rw [hmode]
      have hpm := (List.perm_insertionSort priR tasks.enum).map Prod.fst
      rwa [List.enum_map_fst] at hpm
    · intro p q i j hp hq hpq
      rw [hmode] at hp hq
      obtain ⟨hrel, hne⟩ := proj_pair_rel priR tasks p q i j hp hq hpq
      unfold priR at hrel
      unfold prioAt
      rcases hrel with h | ⟨he, hle⟩
      · exact Or.inl h
      · exact Or.inr ⟨he, lt_of_le_of_ne hle hne⟩

/-- C7 witness: the stability statement of `priority_projection` applied
at the example list, output positions 0 and 2 (task 1, `high`, before
task 0, `low`). -/
theorem priority_projection_witness :
    priority_order (prioAt priExample 1) < priority_order (prioAt priExample 0) ∨
      (priority_order (prioAt priExample 1) = priority_order (prioAt priExample 0) ∧
        1 < 0) :=
  (priority_projection.2.2 priExample).2 0 2 1 0 (by decide) (by decide) (by decide)

/-! ### C6: due-date projection -/

/-- C6: projection in sort mode `due_date` orders the top-level tasks by
ascending code-point-lexicographic comparison of their due-date strings,
placing every task with an empty due date after every dated task — the
substituted sentinel `9999-99-99` lexicographically exceeds every string
the date parser accepts — with ties broken by the original order; the
example with dues `2026-02-01`, empty, `2026-01-01` projects as
`[2, 0, 1]`, i.e. dues `2026-01-01`, `2026-02-01`, empty. -/
theorem due_date_projection :
    TodoApp.get_sorted_task_indices dueExample "due_date" = [2, 0, 1] ∧
    (∀ s : String, (strptimeYmd s).isSome = true →
        lexLt s.data "9999-99-99".data = true) ∧
    ∀ tasks : List TodoTask,
      (∀ t ∈ tasks, t.due_date = "" ∨ (strptimeYmd t.due_date).isSome = true) →
      (TodoApp.get_sorted_task_indices tasks "due_date").Perm (List.range tasks.length) ∧
      ∀ p q i j : Nat, (TodoApp.get_sorted_task_indices tasks "due_date")[p]? = some i →
        (TodoApp.get_sorted_task_indices tasks "due_date")[q]? = some j → p < q →
        (dueAt tasks i = "" → dueAt tasks j = "" ∧ i < j) ∧
        (dueAt tasks i ≠ "" → dueAt tasks j ≠ "" →
          (lexLt (dueAt tasks i).data (dueAt tasks j).data = true ∨
            (dueAt tasks i = dueAt tasks j ∧ i < j))) := by
  refine ⟨by decide, valid_lt_sentinel, ?_⟩
  intro tasks hv
  have hmode : TodoApp.get_sorted_task_indices tasks "due_date" =
      (List.insertionSort dueR tasks.enum).map Prod.fst := by
    simp [TodoApp.get_sorted_task_indices]
  constructor
  · rw [hmode]
    have hpm := (List.perm_insertionSort dueR tasks.enum).map Prod.fst
    rwa [List.enum_map_fst] at hpm
  · intro p q i j hp hq hpq
    rw [hmode] at hp hq
    obtain ⟨hrel, hne⟩ := proj_pair_rel dueR tasks p q i j hp hq hpq
    have hjmem : tasks.getD j default ∈ tasks := by
      have hjr : j ∈ (List.insertionSort dueR tasks.enum).map Prod.fst := by
        obtain ⟨hl, hv⟩ := List.getElem?_eq_some_iff.mp hq
        exact hv ▸ List.getElem_mem hl
      have hperm : ((List.insertionSort dueR tasks.enum).map Prod.fst).Perm
          (List.range tasks.length) := by
        have hpm := (List.perm_insertionSort dueR tasks.enum).map Prod.fst
        rwa [List.enum_map_fst] at hpm
      have hjlen : j < tasks.length := List.mem_range.mp (hperm.mem_iff.mp hjr)
      rw [List.getD_eq_getElem _ _ hjlen]
      exact List.getElem_mem hjlen
    have hvj := hv _ hjmem
    unfold dueR at hrel
    unfold dueAt
    constructor
    · intro hie
      have hki : dateKeyOf (tasks.getD i default) = "9999-99-99".data :=
        dateKeyOf_empty hie
      rcases hrel with h | ⟨he, hle⟩
      · exfalso
        rcases hvj with hje | hjv
        · rw [hki, dateKeyOf_empty hje] at h
          rw [lexLt_irrefl] at h
          exact Bool.false_ne_true h
        · have hjne : (tasks.getD j default).due_date ≠ "" := by
            intro e; rw [e] at hjv; exact absurd hjv (by decide)
          rw [hki, dateKeyOf_dated hjne] at h
          exact lexLt_asymm _ _ h (valid_lt_sentinel _ hjv)
      · rcases hvj with hje | hjv
        · exact ⟨hje, lt_of_le_of_ne hle hne⟩
        · exfalso
          have hjne : (tasks.getD j default).due_date ≠ "" := by
            intro e; rw [e] at hjv; exact absurd hjv (by decide)
          rw [hki, dateKeyOf_dated hjne] at he
          have : (tasks.getD j default).due_date = "9999-99-99" := String.ext he.symm
          rw [this] at hjv
          exact absurd hjv (by decide)
    · intro hine hjne
      rcases hrel with h | ⟨he, hle⟩
      · left
        rw [dateKeyOf_dated hine, dateKeyOf_dated hjne] at h
        exact h
      · right
        rw [dateKeyOf_dated hine, dateKeyOf_dated hjne] at he
        exact ⟨String.ext he, lt_of_le_of_ne hle hne⟩

/-- C6 witness: the ordering statement of `due_date_projection` applied at
the example list, output positions 0 and 1 (task 2, due `2026-01-01`,
before task 0, due `2026-02-01`). -/
theorem due_date_projection_witness :
    (dueAt dueExample 2 = "" → dueAt dueExample 0 = "" ∧ 2 < 0) ∧
    (dueAt dueExample 2 ≠ "" → dueAt dueExample 0 ≠ "" →
      (lexLt (dueAt dueExample 2).data (dueAt dueExample 0).data = true ∨
        (dueAt dueExample 2 = dueAt dueExample 0 ∧ 2 < 0))) :=
  (due_date_projection.2.2 dueExample (by decide)).2 0 1 2 0 (by decide) (by decide)
    (by decide)

/-! ### Flattening lemmas -/

theorem sorted_indices_perm (tasks : List TodoTask) (mode : String) :
    (TodoApp.get_sorted_task_indices tasks mode).Perm (List.range tasks.length) := by
  by_cases h0 : mode = "none"
  · simp [TodoApp.get_sorted_task_indices, h0]
  · by_cases h1 : mode = "priority"
    · have hpm := (List.perm_insertionSort priR tasks.enum).map Prod.fst
      rw [List.enum_map_fst] at hpm
      simpa [TodoApp.get_sorted_task_indices, h0, h1] using hpm
    · by_cases h2 : mode = "due_date"
      · have hpm := (List.perm_insertionSort dueR tasks.enum).map Prod.fst
        rw [List.enum_map_fst] at hpm
        simpa [TodoApp.get_sorted_task_indices, h0, h1, h2] using hpm
      · simp [TodoApp.get_sorted_task_indices, h0, h1, h2, List.enum_map_fst]

theorem flat_parent_filter (tasks : List TodoTask) :
    ∀ idxs : List Nat,
      ((idxs.flatMap (fun i => taskBlock i (tasks.getD i default))).filter
          (fun e => e.2.isNone)).map Prod.fst = idxs := by
  intro idxs
  induction idxs with
  | nil => rfl
  | cons i rest ih =>
    rw [List.flatMap_cons, List.filter_append, List.map_append, ih]
    have hblock : (taskBlock i (tasks.getD i default)).filter (fun e => e.2.isNone) =
        [(i, none)] := by
      simp only [taskBlock, List.filter_cons]
      rw [List.filter_map]
      simp [Function.comp]
    rw [hblock]
    rfl

theorem flat_rows_length (tasks : List TodoTask) :
    ∀ idxs : List Nat,
      (idxs.flatMap (fun i => rowBlock (tasks.getD i default))).length =
        (idxs.flatMap (fun i => taskBlock i (tasks.getD i default))).length := by
  intro idxs
  induction idxs with
  | nil => rfl
  | cons i rest ih =>
    rw [List.flatMap_cons, List.flatMap_cons, List.length_append, List.length_append, ih]
    simp [taskBlock, rowBlock]

theorem flat_rows_pointwise (tasks : List TodoTask) :
    ∀ (idxs : List Nat) (r : Nat) (e : Nat × Option Nat),
      (idxs.flatMap (fun i => taskBlock i (tasks.getD i default)))[r]? = some e →
      (idxs.flatMap (fun i => rowBlock (tasks.getD i default)))[r]? =
        some (renderEntry tasks e) := by
  intro idxs
  induction idxs with
  | nil => intro r e h; simp at h
  | cons i rest ih =>
    intro r e h
    rw [List.flatMap_cons] at h ⊢
    rw [List.getElem?_append] at h ⊢
    have hlen : (taskBlock i (tasks.getD i default)).length =
        (tasks.getD i default).subtasks.length + 1 := by
      simp [taskBlock]
    have hlenr : (rowBlock (tasks.getD i default)).length =
        (tasks.getD i default).subtasks.length + 1 := by
      simp [rowBlock]
    by_cases hr : r < (taskBlock i (tasks.getD i default)).length
    · rw [if_pos hr] at h
      rw [if_pos (by omega : r < (rowBlock (tasks.getD i default)).length)]
      cases r with
      | zero =>
        simp only [taskBlock, List.getElem?_cons_zero, Option.some.injEq] at h
        subst h
        simp [rowBlock, renderEntry]
      | succ k =>
        simp only [taskBlock, List.getElem?_cons_succ, List.getElem?_map] at h
        have hk : k < (tasks.getD i default).subtasks.length := by omega
        rw [List.getElem?_range hk] at h
        simp only [Option.map_some', Option.some.injEq] at h
        subst h
        simp only [rowBlock, List.getElem?_cons_succ, List.getElem?_map]
        have hsub : (tasks.getD i default).subtasks[k]? =
            some ((tasks.getD i default).subtasks.getD k default) := by
          rw [List.getD_eq_getElem _ _ hk]
          exact List.getElem?_eq_some_iff.mpr ⟨hk, rfl⟩
        rw [hsub]
        rfl
    · rw [if_neg hr] at h
      rw [if_neg (by omega : ¬ r < (rowBlock (tasks.getD i default)).length)]
      rw [show r - (rowBlock (tasks.getD i default)).length =
        r - (taskBlock i (tasks.getD i default)).length by omega]
      exact ih _ e h

theorem flat_parent_block (tasks : List TodoTask) :
    ∀ (idxs : List Nat) (r i : Nat),
      (idxs.flatMap (fun b => taskBlock b (tasks.getD b default)))[r]? = some (i, none) →
      ∀ k : Nat, k < (tasks.getD i default).subtasks.length →
        (idxs.flatMap (fun b => taskBlock b (tasks.getD b default)))[r + 1 + k]? =
          some (i, some k) := by
  intro idxs
  induction idxs with
  | nil => intro r i h; simp at h
  | cons b rest ih =>
    intro r i h k hk
    rw [List.flatMap_cons, List.getElem?_append] at h ⊢
    have hlen : (taskBlock b (tasks.getD b default)).length =
        (tasks.getD b default).subtasks.length + 1 := by
      simp [taskBlock]
    by_cases hr : r < (taskBlock b (tasks.getD b default)).length
    · rw [if_pos hr] at h
      cases r with
      | zero =>
        simp only [taskBlock, List.getElem?_cons_zero, Option.some.injEq,
          Prod.mk.injEq] at h
        obtain ⟨hb, -⟩ := h
        subst hb
        rw [if_pos (by omega : 0 + 1 + k < (taskBlock b (tasks.getD b default)).length)]
        simp only [taskBlock]
        rw [show 0 + 1 + k = k + 1 by omega, List.getElem?_cons_succ,
          List.getElem?_map, List.getElem?_range hk]
        rfl
      | succ r' =>
        exfalso
        simp only [taskBlock, List.getElem?_cons_succ, List.getElem?_map] at h
        by_cases hr' : r' < (tasks.getD b default).subtasks.length
        · rw [List.getElem?_range hr'] at h
          simp at h
        · rw [List.getElem?_eq_none (by simpa using hr')] at h
          simp at h
    · rw [if_neg hr] at h
      rw [if_neg (by omega : ¬ r + 1 + k < (taskBlock b (tasks.getD b default)).length)]
      rw [show r + 1 + k - (taskBlock b (tasks.getD b default)).length =
        (r - (taskBlock b (tasks.getD b default)).length) + 1 + k by omega]
      exact ih _ i h k hk

theorem flat_subtask_parent (tasks : List TodoTask) :
    ∀ (idxs : List Nat) (r i k : Nat),
      (idxs.flatMap (fun b => taskBlock b (tasks.getD b default)))[r]? = some (i, some k) →
      ∃ r0, r = r0 + 1 + k ∧
        (idxs.flatMap (fun b => taskBlock b (tasks.getD b default)))[r0]? = some (i, none) ∧
        k < (tasks.getD i default).subtasks.length := by
  intro idxs
  induction idxs with
  | nil => intro r i k h; simp at h
  | cons b rest ih =>
    intro r i k h
    rw [List.flatMap_cons, List.getElem?_append] at h
    have hlen : (taskBlock b (tasks.getD b default)).length =
        (tasks.getD b default).subtasks.length + 1 := by
      simp [taskBlock]
    by_cases hr : r < (taskBlock b (tasks.getD b default)).length
    · rw [if_pos hr] at h
      cases r with
      | zero => simp [taskBlock] at h
      | succ r' =>
        simp only [taskBlock, List.getElem?_cons_succ, List.getElem?_map] at h
        by_cases hr' : r' < (tasks.getD b default).subtasks.length
        · rw [List.getElem?_range hr'] at h
          simp only [Option.map_some', Option.some.injEq, Prod.mk.injEq,
            Option.some.injEq] at h
          obtain ⟨hb, hk'⟩ := h
          subst hb
          subst hk'
          refine ⟨0, by omega, ?_, hr'⟩
          rw [List.flatMap_cons, List.getElem?_append,
            if_pos (by omega : 0 < (taskBlock b (tasks.getD b default)).length)]
          simp [taskBlock]
        · rw [List.getElem?_eq_none (by simpa using hr')] at h
          simp at h
    · rw [if_neg hr] at h
      obtain ⟨r0, hr0, hp0, hklt⟩ := ih _ i k h
      refine ⟨r0 + (taskBlock b (tasks.getD b default)).length, by omega, ?_, hklt⟩
      rw [List.flatMap_cons, List.getElem?_append,
        if_neg (by omega : ¬ r0 + (taskBlock b (tasks.getD b default)).length <
          (taskBlock b (tasks.getD b default)).length),
        show r0 + (taskBlock b (tasks.getD b default)).length -
          (taskBlock b (tasks.getD b default)).length = r0 by omega]
      exact hp0

/-! ### C8: projection shape -/

/-- C8: for every task list and every sort mode, the projection emits
exactly one row per top-level task — the parent rows, read in order, are
exactly the sorted index sequence, a permutation of all indices — each
parent row immediately followed by one row per subtask of that task in
stored order (row `r` for task `i` is followed by rows `r+1+k` for its
subtasks `k`), every subtask row sits at exactly that offset after its own
parent's row (so subtasks are never interleaved with other tasks' rows or
reordered), and the row list displays, position by position, exactly the
entity the row map resolves that position to. -/
theorem projection_rows (tasks : List TodoTask) (mode : String) :
    (TodoApp.get_sorted_task_indices tasks mode).Perm (List.range tasks.length) ∧
    ((TodoApp.index_map tasks mode).filter (fun e => e.2.isNone)).map Prod.fst =
        TodoApp.get_sorted_task_indices tasks mode ∧
    (∀ r i : Nat, (TodoApp.index_map tasks mode)[r]? = some (i, none) →
        ∀ k : Nat, k < (tasks.getD i default).subtasks.length →
          (TodoApp.index_map tasks mode)[r + 1 + k]? = some (i, some k)) ∧
    (∀ r i k : Nat, (TodoApp.index_map tasks mode)[r]? = some (i, some k) →
        ∃ r0, r = r0 + 1 + k ∧ (TodoApp.index_map tasks mode)[r0]? = some (i, none) ∧
          k < (tasks.getD i default).subtasks.length) ∧
    (TodoApp.rows tasks mode).length = (TodoApp.index_map tasks mode).length ∧
    (∀ (r : Nat) (e : Nat × Option Nat), (TodoApp.index_map tasks mode)[r]? = some e →
        (TodoApp.rows tasks mode)[r]? = some (renderEntry tasks e)) :=
  ⟨sorted_indices_perm tasks mode,
   flat_parent_filter tasks (TodoApp.get_sorted_task_indices tasks mode),
   fun r i h k hk =>
     flat_parent_block tasks (TodoApp.get_sorted_task_indices tasks mode) r i h k hk,
   fun r i k h =>
     flat_subtask_parent tasks (TodoApp.get_sorted_task_indices tasks mode) r i k h,
   flat_rows_length tasks (TodoApp.get_sorted_task_indices tasks mode),
   fun r e h =>
     flat_rows_pointwise tasks (TodoApp.get_sorted_task_indices tasks mode) r e h⟩

/-- C8 witness: `projection_rows` applied to a list whose first task has
two subtasks — the second subtask row sits at offset 2 after the parent
row, and the row after the whole block displays the next task. -/
theorem projection_rows_witness :
    (TodoApp.index_map subExample "none")[0 + 1 + 1]? = some (0, some 1) ∧
    (TodoApp.rows subExample "none")[3]? = some (renderEntry subExample (1, none)) :=
  ⟨(projection_rows subExample "none").2.2.1 0 0 (by decide) 1 (by decide),
   (projection_rows subExample "none").2.2.2.2.2 3 (1, none) (by decide)⟩

/-! ### C1: drag-and-drop reorder -/

theorem on_drag_start_of_mode {tasks : List TodoTask} {mode : String} {srcRow : Nat}
    (h : mode ≠ "none") : TodoApp.on_drag_start tasks mode srcRow = none := by
  unfold TodoApp.on_drag_start
  rw [if_pos h]

theorem on_drag_start_parent {tasks : List TodoTask} {srcRow s : Nat}
    (hp : (TodoApp.index_map tasks "none")[srcRow]? = some (s, none)) :
    TodoApp.on_drag_start tasks "none" srcRow = some srcRow := by
  unfold TodoApp.on_drag_start
  rw [if_neg (by simp), hp]

theorem on_drag_start_subtask {tasks : List TodoTask} {mode : String} {srcRow s k : Nat}
    (hp : (TodoApp.index_map tasks mode)[srcRow]? = some (s, some k)) :
    TodoApp.on_drag_start tasks mode srcRow = none := by
  unfold TodoApp.on_drag_start
  by_cases h : mode ≠ "none"
  · rw [if_pos h]
  · rw [if_neg h, hp]

theorem on_drag_start_oob {tasks : List TodoTask} {mode : String} {srcRow : Nat}
    (h : (TodoApp.index_map tasks mode).length ≤ srcRow) :
    TodoApp.on_drag_start tasks mode srcRow = none := by
  unfold TodoApp.on_drag_start
  by_cases hm : mode ≠ "none"
  · rw [if_pos hm]
  · rw [if_neg hm, List.getElem?_eq_none h]

/-- C1 counterexample: on `[A, B, C]` in sort mode `none`, `Reorder(0, 2)`
yields `[B, A, C]`, not the claimed `[B, C, A]` — popping A gives
`[B, C]`, the drop index 2 is decremented to 1 because it lies after the
source, and inserting A at 1 puts it before C (consistent with the claim's
own general rule, which the example contradicts). -/
theorem reorder_first_example_refuted :
    TodoApp.reorder abcTasks "none" 0 2 =
      [mkTask 2 "B" "" "", mkTask 1 "A" "" "", mkTask 3 "C" "" ""] ∧
    TodoApp.reorder abcTasks "none" 0 2 ≠
      [mkTask 2 "B" "" "", mkTask 3 "C" "" "", mkTask 1 "A" "" ""] := by
  exact ⟨by decide, by decide⟩

/-- C1 (amended): `Reorder(0,2)` on `[A,B,C]` yields `[B,A,C]` (the moved
task lands at the drop task's position, per the general rule below) and
`Reorder(2,0)` yields `[C,A,B]`; in general, when sort mode is `none` and
both rows resolve to distinct top-level tasks `s` and `d`, reorder removes
the task at `s` and reinserts it at `d` interpreted in the list after
removal (decremented by one when `d` lies after `s`); reorder is a no-op
whenever the sort mode is not `none`, the source row equals the
destination row, either row is outside the map, or either row resolves to
a subtask. -/
theorem reorder_correctness :
    TodoApp.reorder abcTasks "none" 0 2 =
      [mkTask 2 "B" "" "", mkTask 1 "A" "" "", mkTask 3 "C" "" ""] ∧
    TodoApp.reorder abcTasks "none" 2 0 =
      [mkTask 3 "C" "" "", mkTask 1 "A" "" "", mkTask 2 "B" "" ""] ∧
    (∀ (tasks : List TodoTask) (mode : String) (srcRow dstRow : Nat), mode ≠ "none" →
        TodoApp.reorder tasks mode srcRow dstRow = tasks) ∧
    (∀ (tasks : List TodoTask) (mode : String) (r : Nat),
        TodoApp.reorder tasks mode r r = tasks) ∧
    (∀ (tasks : List TodoTask) (mode : String) (srcRow dstRow : Nat),
        (TodoApp.index_map tasks mode).length ≤ srcRow →
        TodoApp.reorder tasks mode srcRow dstRow = tasks) ∧
    (∀ (tasks : List TodoTask) (mode : String) (srcRow dstRow : Nat),
        (TodoApp.index_map tasks mode).length ≤ dstRow →
        TodoApp.reorder tasks mode srcRow dstRow = tasks) ∧
    (∀ (tasks : List TodoTask) (mode : String) (srcRow dstRow i k : Nat),
        (TodoApp.index_map tasks mode)[srcRow]? = some (i, some k) →
        TodoApp.reorder tasks mode srcRow dstRow = tasks) ∧
    (∀ (tasks : List TodoTask) (mode : String) (srcRow dstRow i k : Nat),
        (TodoApp.index_map tasks mode)[dstRow]? = some (i, some k) →
        TodoApp.reorder tasks mode srcRow dstRow = tasks) ∧
    (∀ (tasks : List TodoTask) (srcRow dstRow s d : Nat) (t : TodoTask),
        (TodoApp.index_map tasks "none")[srcRow]? = some (s, none) →
        (TodoApp.index_map tasks "none")[dstRow]? = some (d, none) →
        srcRow ≠ dstRow → tasks[s]? = some t →
        TodoApp.reorder tasks "none" srcRow dstRow =
          (tasks.eraseIdx s).insertIdx (if s < d then d - 1 else d) t) := by
  refine ⟨by decide, by decide, ?_, ?_, ?_, ?_, ?_, ?_, ?_⟩
  · intro tasks mode srcRow dstRow hmode
    unfold TodoApp.reorder
    rw [on_drag_start_of_mode hmode]
  · intro tasks mode r
    unfold TodoApp.reorder
    cases hds : TodoApp.on_drag_start tasks mode r with
    | none => rfl
    | some sr =>
      have hsr : sr = r := by
        unfold TodoApp.on_drag_start at hds
        by_cases h : mode ≠ "none"
        · rw [if_pos h] at hds; cases hds
        · rw [if_neg h] at hds
          rcases hm : (TodoApp.index_map tasks mode)[r]? with _ | ⟨i, sub⟩
          · rw [hm] at hds; cases hds
          · rw [hm] at hds
            cases sub with
            | none => exact (Option.some.inj hds).symm
            | some k => cases hds
      subst hsr
      dsimp only
      rw [if_neg (by simp)]
  · intro tasks mode srcRow dstRow h
    unfold TodoApp.reorder
    rw [on_drag_start_oob h]
  · intro tasks mode srcRow dstRow h
    unfold TodoApp.reorder
    cases hds : TodoApp.on_drag_start tasks mode srcRow with
    | none => rfl
    | some sr =>
      dsimp only
      rw [if_neg (fun hc => absurd hc.1 (by omega))]
  · intro tasks mode srcRow dstRow i k hp
    unfold TodoApp.reorder
    rw [on_drag_start_subtask hp]
  · intro tasks mode srcRow dstRow i k hq
    unfold TodoApp.reorder
    cases hds : TodoApp.on_drag_start tasks mode srcRow with
    | none => rfl
    | some sr =>
      dsimp only
      by_cases hc : dstRow < (TodoApp.index_map tasks mode).length ∧ dstRow ≠ sr
      · rw [if_pos hc, hq]
        rcases hm : (TodoApp.index_map tasks mode)[sr]? with _ | ⟨s, sub⟩
        · rfl
        · cases sub <;> rfl
      · rw [if_neg hc]
  · intro tasks srcRow dstRow s d t hp hq hne ht
    unfold TodoApp.reorder
    rw [on_drag_start_parent hp]
    dsimp only
    have hlen : dstRow < (TodoApp.index_map tasks "none").length :=
      (List.getElem?_eq_some_iff.mp hq).1
    rw [if_pos ⟨hlen, fun e => hne e.symm⟩, hp, hq]
    dsimp only
    rw [ht]

/-- C1 witness: the general-rule part of `reorder_correctness` applied to
the `[A, B, C]` example with rows 0 and 2. -/
theorem reorder_correctness_witness :
    TodoApp.reorder abcTasks "none" 0 2 =
      (abcTasks.eraseIdx 0).insertIdx (if 0 < 2 then 2 - 1 else 2) (mkTask 1 "A" "" "") :=
  reorder_correctness.2.2.2.2.2.2.2.2 abcTasks 0 2 0 2 (mkTask 1 "A" "" "")
    (by decide) (by decide) (by decide) (by decide)

/-! ### Stripping lemmas -/

theorem dropWhile_head_not (p : Char → Bool) (l : List Char) :
    ∀ x ∈ (l.dropWhile p).head?, p x = false := by
  induction l with
  | nil => intro x hx; simp at hx
  | cons a as ih =>
    intro x hx
    rw [List.dropWhile_cons] at hx
    by_cases h : p a
    · rw [if_pos h] at hx; exact ih x hx
    · rw [if_neg h] at hx
      simp only [List.head?_cons, Option.mem_def, Option.some.injEq] at hx
      subst hx
      simpa using h

theorem dropWhile_eq_self_of_head (p : Char → Bool) (l : List Char)
    (h : ∀ x ∈ l.head?, p x = false) : l.dropWhile p = l := by
  cases l with
  | nil => rfl
  | cons a as =>
    have ha : p a = false := h a (by simp)
    rw [List.dropWhile_cons, if_neg (by simp [ha])]

theorem stripList_head (l : List Char) : ∀ x ∈ (stripList l).head?, pyWs x = false := by
  intro x hx
  unfold stripList at hx
  have hsuf : (l.dropWhile pyWs).reverse.dropWhile pyWs <:+ (l.dropWhile pyWs).reverse :=
    List.dropWhile_suffix pyWs
  have hpre : ((l.dropWhile pyWs).reverse.dropWhile pyWs).reverse <+: l.dropWhile pyWs := by
    have h1 := (@List.reverse_prefix Char ((l.dropWhile pyWs).reverse.dropWhile pyWs)
      (l.dropWhile pyWs).reverse).mpr hsuf
    rwa [List.reverse_reverse] at h1
  obtain ⟨ts, hts⟩ := hpre
  cases hbr : ((l.dropWhile pyWs).reverse.dropWhile pyWs).reverse with
  | nil => rw [hbr] at hx; simp at hx
  | cons y ys =>
    rw [hbr] at hx
    simp only [List.head?_cons, Option.mem_def, Option.some.injEq] at hx
    have hAhead : (l.dropWhile pyWs).head? = some y := by
      rw [← hts, hbr]; rfl
    have hy := dropWhile_head_not pyWs l y hAhead
    rw [← hx]
    exact hy

theorem stripList_last (l : List Char) :
    ∀ x ∈ (stripList l).getLast?, pyWs x = false := by
  intro x hx
  unfold stripList at hx
  rw [List.getLast?_reverse] at hx
  exact dropWhile_head_not pyWs _ x hx

theorem stripList_idem (l : List Char) : stripList (stripList l) = stripList l := by
  have h1 : (stripList l).dropWhile pyWs = stripList l :=
    dropWhile_eq_self_of_head _ _ (stripList_head l)
  show (((stripList l).dropWhile pyWs).reverse.dropWhile pyWs).reverse = stripList l
  rw [h1]
  have h2 : (stripList l).reverse.dropWhile pyWs = (stripList l).reverse := by
    apply dropWhile_eq_self_of_head
    intro x hx
    rw [List.head?_reverse] at hx
    exact stripList_last l x hx
  rw [h2, List.reverse_reverse]

theorem pyStrip_idem (s : String) : pyStrip (pyStrip s) = pyStrip s :=
  congrArg String.mk (stripList_idem s.data)

/-! ### C9: the task-edit dialog -/

theorem step_inv (s : DialogState) (e : DialogEvent)
    (h : s.result = none ∨ ∃ r, s.result = some r ∧ dialogResultOk r) :
    (TaskEditDialog.step s e).result = none ∨
      ∃ r, (TaskEditDialog.step s e).result = some r ∧ dialogResultOk r := by
  simp only [TaskEditDialog.step]
  by_cases hc : s.closed = true
  · rw [if_pos hc]; exact h
  · rw [if_neg hc]
    cases e with
    | setTitle t => exact h
    | setPriority p => exact h
    | setDate d => exact h
    | cancelClick => exact Or.inl rfl
    | okClick =>
      simp only [TaskEditDialog.on_ok]
      by_cases h1 : pyStrip s.dateEntry ≠ "" ∧ (strptimeYmd (pyStrip s.dateEntry)).isNone
      · rw [if_pos h1]; exact h
      · rw [if_neg h1]
        by_cases h2 : pyStrip s.titleEntry ≠ ""
        · rw [if_pos h2]
          refine Or.inr ⟨_, rfl, pyStrip_idem s.titleEntry, h2, ?_⟩
          rcases not_and_or.mp h1 with hd | hd
          · exact Or.inl (not_not.mp hd)
          · right
            cases hopt : strptimeYmd (pyStrip s.dateEntry) with
            | none => exact absurd (by rw [hopt]; rfl) hd
            | some v => rfl
        · rw [if_neg h2]; exact h

theorem run_inv (events : List DialogEvent) :
    ∀ s : DialogState, (s.result = none ∨ ∃ r, s.result = some r ∧ dialogResultOk r) →
      (TaskEditDialog.run s events).result = none ∨
        ∃ r, (TaskEditDialog.run s events).result = some r ∧ dialogResultOk r := by
  induction events with
  | nil => intro s h; exact h
  | cons e es ih =>
    intro s h
    rw [show TaskEditDialog.run s (e :: es) =
      TaskEditDialog.run (TaskEditDialog.step s e) es from rfl]
    exact ih _ (step_inv s e h)

/-- C9 counterexample: with title `x` and date `2026-1-5`, clicking OK
confirms — `strptime("%Y-%m-%d")` accepts single-digit month and day — so
the dialog terminates Confirmed carrying a non-empty due date that does
NOT match the literal four-two-two digit `YYYY-MM-DD` shape, refuting the
claim that every Confirmed due date matches `YYYY-MM-DD`. -/
theorem dialog_accepts_nonpadded_date :
    (TaskEditDialog.on_ok ⟨"x", "none", "2026-1-5", none, false⟩).closed = true ∧
    (TaskEditDialog.on_ok ⟨"x", "none", "2026-1-5", none, false⟩).result =
      some ⟨"x", "", "2026-1-5"⟩ ∧
    matchesYyyyMmDd "2026-1-5" = false :=
  ⟨by decide, by decide, by decide⟩

/-- C9 (amended): every dialog interaction ends in one of two outcomes:
Cancelled (`result` is `none`, nothing else) or Confirmed with a result
whose title is its own strip and non-empty and whose due date is either
empty or accepted by the `%Y-%m-%d` parser (which also admits single-digit
month and day, e.g. `2026-1-5` — not only the four-two-two digit shape);
and whenever the stripped title is empty, or the stripped date is
non-empty and rejected by the parser, clicking OK leaves the dialog state
completely unchanged — still open, never Confirmed, re-prompting in
place.  The dialog functions touch only `DialogState`: no task-model state
appears in their types. -/
theorem dialog_outcomes :
    (∀ (t0 p0 d0 : String) (events : List DialogEvent),
        (TaskEditDialog.run (TaskEditDialog.init t0 p0 d0) events).closed = true →
        (TaskEditDialog.run (TaskEditDialog.init t0 p0 d0) events).result = none ∨
        ∃ r, (TaskEditDialog.run (TaskEditDialog.init t0 p0 d0) events).result = some r ∧
          dialogResultOk r) ∧
    (∀ s : DialogState,
        (pyStrip s.titleEntry = "" ∨
          (pyStrip s.dateEntry ≠ "" ∧ (strptimeYmd (pyStrip s.dateEntry)).isNone = true)) →
        TaskEditDialog.on_ok s = s) := by
  constructor
  · intro t0 p0 d0 events _
    exact run_inv events (TaskEditDialog.init t0 p0 d0) (Or.inl rfl)
  · intro s h
    simp only [TaskEditDialog.on_ok]
    by_cases h1 : pyStrip s.dateEntry ≠ "" ∧ (strptimeYmd (pyStrip s.dateEntry)).isNone
    · rw [if_pos h1]
    · rw [if_neg h1]
      rcases h with ht | hd
      · rw [if_neg (by simp [ht])]
      · exact absurd hd h1

/-- C9 witness: `dialog_outcomes` applied to a concrete confirmed
interaction and to a concrete blocked OK click. -/
theorem dialog_outcomes_witness :
    ((TaskEditDialog.run (TaskEditDialog.init "" "" "")
        [.setTitle " jam ", .setDate "2026-01-15", .okClick]).result = none ∨
      ∃ r, (TaskEditDialog.run (TaskEditDialog.init "" "" "")
        [.setTitle " jam ", .setDate "2026-01-15", .okClick]).result = some r ∧
          dialogResultOk r) ∧
    TaskEditDialog.on_ok ⟨"   ", "none", "", none, false⟩ =
      ⟨"   ", "none", "", none, false⟩ :=
  ⟨dialog_outcomes.1 "" "" "" [.setTitle " jam ", .setDate "2026-01-15", .okClick]
      (by decide),
   dialog_outcomes.2 ⟨"   ", "none", "", none, false⟩ (Or.inl (by decide))⟩
